import Mathlib

/-!
Shallow embedding of the stage-director library (src/src/stage-director.js).

The library constructs "directors": given a name and a mapping of transition
definitions it synthesizes action creators and a single reducer that routes
actions by parsing a ":"-separated composite type string.

JavaScript objects used as action payloads are embedded as association lists
from field names to primitive values; the spread-merge `{...o, k: v}` is
`setField`.  Transition definitions form a tagged union mirroring the runtime
`typeof` branches of the source.  Errors are explicit: configuration errors
at construction time become `Except String`, and the reducer returns
`Except JSError` distinguishing deliberately thrown errors from implicit
runtime TypeErrors (e.g. splitting an undefined `type`).
-/

namespace StageDirector

/-- JavaScript primitive values that can appear as payload fields. -/
inductive JSVal where
  | str : String → JSVal
  | num : Int → JSVal
  | boolean : Bool → JSVal
  | null : JSVal
  deriving DecidableEq, Repr

/-- A plain JavaScript object: an ordered association list of fields. -/
abbrev JSObj := List (String × JSVal)

/-- Property read `o[k]`: first matching field, `none` for `undefined`. -/
def getField (o : JSObj) (k : String) : Option JSVal :=
  (o.find? (fun p => p.1 == k)).map Prod.snd

/-- Object-literal spread `{...o, k: v}`: overwrite `k` in place if present,
otherwise append it. -/
def setField (o : JSObj) (k : String) (v : JSVal) : JSObj :=
  if o.any (fun p => p.1 == k) then
    o.map (fun p => if p.1 == k then (k, v) else p)
  else
    o ++ [(k, v)]

/-- The fixed key separator (`SEP` in the source). -/
def SEP : String := ":"

/-- `makeKey(namespace, actionName, subActionName)`: join two or three
components with `SEP`; the third component is dropped when falsy
(absent or the empty string), as the source's truthiness test does. -/
def makeKey (ns actionName : String) (subActionName : Option String) : String :=
  match subActionName with
  | some s =>
      if s == "" then ns ++ SEP ++ actionName
      else ns ++ SEP ++ actionName ++ SEP ++ s
  | none => ns ++ SEP ++ actionName

/-- Character-level splitter on the fixed separator `':'` (the single
character of `SEP`), accumulating the current segment in reverse. -/
def splitSepAux : List Char → List Char → List String
  | [], acc => [String.mk acc.reverse]
  | c :: cs, acc =>
      if c = ':' then String.mk acc.reverse :: splitSepAux cs []
      else splitSepAux cs (c :: acc)

/-- `key.split(SEP)` for the fixed one-character separator ":": JavaScript
split semantics (empty string yields `[""]`, adjacent separators yield empty
segments). -/
def jsSplit (s : String) : List String :=
  splitSepAux s.data []

/-- JavaScript array indexing rendered into a template literal: an
out-of-range read is `undefined`, printed as the string "undefined". -/
def jsIndex (parts : List String) (i : Nat) : String :=
  (parts.get? i).getD "undefined"

/-- `getBaseKey(key)`: split on `SEP` and rebuild from the first two parts. -/
def getBaseKey (key : String) : String :=
  jsIndex (jsSplit key) 0 ++ SEP ++ jsIndex (jsSplit key) 1

/-- `getSubKey(key)`: the third `SEP`-separated component, `none` when the
split has fewer than three parts (JavaScript `undefined`). -/
def getSubKey (key : String) : Option String :=
  (jsSplit key).get? 2

/-- First-match lookup in an association list, like a JS object read. -/
def lookupFirst {α : Type} (l : List (String × α)) (k : String) : Option α :=
  (l.find? (fun p => p.1 == k)).map Prod.snd

/-- The `done` argument handed to an async definition: a single completion
callback when `reduce` is a flat function, or a table of callbacks keyed by
sub-transition name when `reduce` is a branching mapping. -/
inductive DoneArg (ε : Type) where
  | single : (JSObj → ε) → DoneArg ε
  | table : List (String × (JSObj → ε)) → DoneArg ε

/-- The `reduce` part of a structured definition: a flat reducer function or
a branching mapping from sub-transition name to reducer. -/
inductive ReduceDef (σ : Type) where
  | flat : (σ → JSObj → σ) → ReduceDef σ
  | branching : List (String × (σ → JSObj → σ)) → ReduceDef σ

/-- The fields of an object-form (structured) transition definition.  Fields
are `Option`s: `none` is an absent (hence falsy) field; every representable
present value (a function or object) is truthy in JavaScript. -/
structure ObjDef (σ ε : Type) where
  create : Option (JSObj → JSObj)
  async : Option (DoneArg ε → JSObj → (JSObj → ε) → (Unit → σ) → ε)
  reduce : Option (ReduceDef σ)

/-- A transition definition as the source's `typeof` dispatch sees it: a
function, an object, or anything else (carrying its `typeof` string). -/
inductive Definition (σ ε : Type) where
  | func : (σ → JSObj → σ) → Definition σ ε
  | obj : ObjDef σ ε → Definition σ ε
  | other : String → Definition σ ε

/-- A generated action creator: either a plain creator (payload to action,
`none` payload meaning "called with no argument", defaulted to `{}`), or a
thunk maker whose result takes `(dispatch, getState)`. -/
inductive ActionCreator (σ ε : Type) where
  | plain : (Option JSObj → JSObj) → ActionCreator σ ε
  | thunkMaker : (Option JSObj → (JSObj → ε) → (Unit → σ) → ε) → ActionCreator σ ε

/-- Errors observable from the reducer: an explicit `throw new Error(msg)`,
or an implicit runtime TypeError. -/
inductive JSError where
  | thrown : String → JSError
  | typeError : String → JSError
  deriving DecidableEq, Repr

variable {σ ε : Type}

/-- One iteration of the constructor's `definitionKeys.forEach`: validate a
definition and produce its action creator, or the configuration error the
source throws. -/
def buildAction (name key : String) (d : Definition σ ε) :
    Except String (ActionCreator σ ε) :=
  match d with
  | .func _ =>
      .ok (.plain (fun payload =>
        setField (payload.getD []) "type" (.str (makeKey name key none))))
  | .obj o =>
      match o.reduce with
      | none =>
          .error "A reducer field is required for an object-based action definition, but none was given"
      | some rd =>
          match o.create with
          | some c =>
              .ok (.plain (fun payload =>
                setField (c (payload.getD [])) "type" (.str (makeKey name key none))))
          | none =>
              match o.async with
              | some a =>
                  .ok (.thunkMaker (fun payload dispatch getState =>
                    match rd with
                    | .flat _ =>
                        a (.single (fun innerPayload =>
                            dispatch (setField innerPayload "type"
                              (.str (makeKey name key none)))))
                          (payload.getD []) dispatch getState
                    | .branching m =>
                        a (.table (m.map (fun p =>
                            (p.1, fun innerPayload =>
                              dispatch (setField innerPayload "type"
                                (.str (makeKey name key (some p.1))))))))
                          (payload.getD []) dispatch getState))
              | none =>
                  .error "Object-based action definitions require either an object field or an async field, but neither was given"
  | .other t =>
      .error ("Definitions must be either a function or an object, but we were given " ++ t)

/-- The whole action-building pass of the constructor: builds one creator per
definition key in order, aborting with the first configuration error. -/
def buildActions (name : String) :
    List (String × Definition σ ε) → Except String (List (String × ActionCreator σ ε))
  | [] => .ok []
  | (key, d) :: rest =>
      match buildAction name key d with
      | .error e => .error e
      | .ok a =>
          match buildActions name rest with
          | .error e => .error e
          | .ok as => .ok ((key, a) :: as)

/-- Reading `payload.type` and handing it to `getBaseKey`: only a string
survives (`split` on any other value raises a TypeError). -/
def typeString (payload : JSObj) : Except JSError String :=
  match getField payload "type" with
  | some (.str t) => .ok t
  | some _ => .error (.typeError "payload.type.split is not a function")
  | none => .error (.typeError "cannot read property split of undefined")

/-- The body the reducer runs once a transition's base key matched: direct
function, flat `reduce`, or branching dispatch on the sub key with the two
dispatch-time errors of the source. -/
def applyDefinition (t : String) (d : Definition σ ε) (state : σ) (payload : JSObj) :
    Except JSError σ :=
  match d with
  | .func f => .ok (f state payload)
  | .obj o =>
      match o.reduce with
      | some (.flat f) => .ok (f state payload)
      | some (.branching m) =>
          match getSubKey t with
          | none =>
              .error (.thrown ("Action " ++ t ++ " doesn\x27t specify a subreducer, but should be one of: " ++ String.intercalate "," (m.map Prod.fst)))
          | some s =>
              if s == "" then
                .error (.thrown ("Action " ++ t ++ " doesn\x27t specify a subreducer, but should be one of: " ++ String.intercalate "," (m.map Prod.fst)))
              else
                match lookupFirst m s with
                | some f => .ok (f state payload)
                | none =>
                    .error (.thrown ("Action " ++ t ++ " has subkey " ++ s ++ ", but should be one of: " ++ String.intercalate "," (m.map Prod.fst)))
      | none => .error (.typeError "Object.keys called on undefined")
  | .other _ => .error (.typeError "Object.keys called on undefined")

/-- The reducer's scan over `definitionKeys`: recompute the base key each
iteration (so an action with no string `type` faults as soon as there is at
least one definition), return the first match's result, and fall through to
the unchanged state. -/
def reducerLoop (name : String) (state : σ) (payload : JSObj) :
    List (String × Definition σ ε) → Except JSError σ
  | [] => .ok state
  | (key, d) :: rest =>
      match typeString payload with
      | .error e => .error e
      | .ok t =>
          if getBaseKey t == makeKey name key none then
            applyDefinition t d state payload
          else
            reducerLoop name state payload rest

/-- The director's composed reducer over its definition list. -/
def runReducer (name : String) (defs : List (String × Definition σ ε))
    (state : σ) (payload : JSObj) : Except JSError σ :=
  reducerLoop name state payload defs

/-- The synthesized director: name, action-creator mapping, reducer. -/
structure Director (σ ε : Type) where
  name : String
  actions : List (String × ActionCreator σ ε)
  reducer : σ → JSObj → Except JSError σ

/-- The `StageDirector` constructor: validate the definitions and build the
action creators, then close the reducer over the same definition list. -/
def construct (name : String) (defs : List (String × Definition σ ε)) :
    Except String (Director σ ε) :=
  match buildActions name defs with
  | .error e => .error e
  | .ok acts => .ok ⟨name, acts, runReducer name defs⟩

/-- Result of `StageDirector.combine`: nested action mapping plus the
combined reducer (whose type is whatever the combining function returns). -/
structure CombineResult (σ ε ρ : Type) where
  actions : List (String × List (String × ActionCreator σ ε))
  reducer : ρ

/-- `StageDirector.combine(directors, customCombine)`.  The default combining
function (redux's `combineReducers`) is an external collaborator and enters
the embedding as the `defaultCombine` parameter; `customCombine = none`
models the source's `null` default, and `customCombine || combineReducers`
picks the custom function exactly when one was given. -/
def combine {ρ : Type} (defaultCombine : List (String × (σ → JSObj → Except JSError σ)) → ρ)
    (directors : List (String × Director σ ε))
    (customCombine : Option (List (String × (σ → JSObj → Except JSError σ)) → ρ)) :
    CombineResult σ ε ρ :=
  let reducers := directors.map (fun p => (p.1, p.2.reducer))
  { actions := directors.map (fun p => (p.1, p.2.actions))
  , reducer :=
      (match customCombine with
       | some f => f
       | none => defaultCombine) reducers }

/-- A definition the constructor rejects, exactly as the spec enumerates:
an object without (truthy) `reduce`, an object with neither `create` nor
`async`, or a value that is neither function nor object. -/
def defInvalid : Definition σ ε → Bool
  | .func _ => false
  | .obj o => o.reduce.isNone || (o.create.isNone && o.async.isNone)
  | .other _ => true

/-- Whether an `Except` is a success. -/
def isOkE {α β : Type} : Except α β → Bool
  | .ok _ => true
  | .error _ => false

/-- Extract the success value of an `Except`, with a fallback. -/
def forceOk {α β : Type} (e : Except α β) (dflt : β) : β :=
  match e with
  | .ok b => b
  | .error _ => dflt

theorem str_beq_false (a b : String) (h : a ≠ b) : (a == b) = false := by
  cases hq : a == b with
  | false => rfl
  | true => exact absurd (by simpa using hq) h

theorem bool_eq_false {b : Bool} (h : ¬ b = true) : b = false := by
  cases b with
  | false => rfl
  | true => exact absurd rfl h

theorem getField_cons (k1 : String) (v : JSVal) (l : JSObj) (k : String) :
    getField ((k1, v) :: l) k = if k1 == k then some v else getField l k := by
  cases h : k1 == k <;> simp [getField, List.find?_cons, h]

theorem lookupFirst_cons {α : Type} (k1 : String) (v : α) (l : List (String × α)) (k : String) :
    lookupFirst ((k1, v) :: l) k = if k1 == k then some v else lookupFirst l k := by
  cases h : k1 == k <;> simp [lookupFirst, List.find?_cons, h]

theorem getField_append (l₁ l₂ : JSObj) (k : String) :
    getField (l₁ ++ l₂) k =
      match getField l₁ k with
      | some v => some v
      | none => getField l₂ k := by
  induction l₁ with
  | nil => simp [getField]
  | cons p rest ih =>
    obtain ⟨pk, pv⟩ := p
    rw [List.cons_append, getField_cons, getField_cons]
    cases h : pk == k <;> simp [h, ih]

theorem getField_none_of_not_any (o : JSObj) (k : String)
    (h : o.any (fun p => p.1 == k) = false) : getField o k = none := by
  induction o with
  | nil => rfl
  | cons p rest ih =>
    obtain ⟨pk, pv⟩ := p
    simp only [List.any_cons, Bool.or_eq_false_iff] at h
    rw [getField_cons, if_neg (by simp [h.1])]
    exact ih h.2

theorem getField_map_overwrite_same (o : JSObj) (k : String) (v : JSVal)
    (h : o.any (fun p => p.1 == k) = true) :
    getField (o.map (fun p => if p.1 == k then (k, v) else p)) k = some v := by
  induction o with
  | nil => simp at h
  | cons p rest ih =>
    obtain ⟨pk, pv⟩ := p
    simp only [List.map_cons]
    by_cases hp : (pk == k) = true
    · rw [if_pos hp, getField_cons]
      simp
    · rw [if_neg hp, getField_cons, if_neg hp]
      apply ih
      simpa [List.any_cons, hp] using h

theorem getField_map_overwrite_other (o : JSObj) (k k2 : String) (v : JSVal)
    (hne : k2 ≠ k) :
    getField (o.map (fun p => if p.1 == k then (k, v) else p)) k2 = getField o k2 := by
  induction o with
  | nil => simp [getField]
  | cons p rest ih =>
    obtain ⟨pk, pv⟩ := p
    simp only [List.map_cons]
    by_cases hp : (pk == k) = true
    · have hpk : pk = k := by simpa using hp
      have h1 : (k == k2) = false := str_beq_false k k2 (fun hh => hne hh.symm)
      have h2 : (pk == k2) = false := by rw [hpk]; exact h1
      rw [if_pos hp, getField_cons, getField_cons]
      rw [if_neg (by simp [h1]), if_neg (by simp [h2])]
      exact ih
    · rw [if_neg hp, getField_cons, getField_cons, ih]

theorem getField_setField_same (o : JSObj) (k : String) (v : JSVal) :
    getField (setField o k v) k = some v := by
  unfold setField
  by_cases h : (o.any (fun p => p.1 == k)) = true
  · rw [if_pos h]
    exact getField_map_overwrite_same o k v h
  · rw [if_neg h, getField_append, getField_none_of_not_any o k (bool_eq_false h)]
    simp [getField_cons]

theorem getField_setField_other (o : JSObj) (k k2 : String) (v : JSVal)
    (hne : k2 ≠ k) :
    getField (setField o k v) k2 = getField o k2 := by
  unfold setField
  by_cases h : (o.any (fun p => p.1 == k)) = true
  · rw [if_pos h]
    exact getField_map_overwrite_other o k k2 v hne
  · rw [if_neg h, getField_append]
    cases hg : getField o k2 with
    | some v2 => rfl
    | none => simp [getField_cons, str_beq_false k k2 (fun hh => hne hh.symm), getField]

theorem getField_setField (o : JSObj) (k k2 : String) (v : JSVal) :
    getField (setField o k v) k2 = if k2 = k then some v else getField o k2 := by
  by_cases h : k2 = k
  · rw [if_pos h, h]
    exact getField_setField_same o k v
  · rw [if_neg h]
    exact getField_setField_other o k k2 v h

theorem setField_nil (k : String) (v : JSVal) : setField [] k v = [(k, v)] := rfl

variable {σ ε : Type}

theorem buildAction_cases (name key : String) (d : Definition σ ε) :
    (defInvalid d = true → ∃ e, buildAction name key d = .error e)
    ∧ (defInvalid d = false → ∃ a, buildAction name key d = .ok a) := by
  cases d with
  | func f => exact ⟨fun h => by simp [defInvalid] at h, fun _ => ⟨_, rfl⟩⟩
  | obj o =>
    obtain ⟨c, a, r⟩ := o
    cases r with
    | none => exact ⟨fun _ => ⟨_, rfl⟩, fun h => by simp [defInvalid] at h⟩
    | some rd =>
      cases c with
      | some cf => exact ⟨fun h => by simp [defInvalid] at h, fun _ => ⟨_, rfl⟩⟩
      | none =>
        cases a with
        | some af => exact ⟨fun h => by simp [defInvalid] at h, fun _ => ⟨_, rfl⟩⟩
        | none => exact ⟨fun _ => ⟨_, rfl⟩, fun h => by simp [defInvalid] at h⟩
  | other t => exact ⟨fun _ => ⟨_, rfl⟩, fun h => by simp [defInvalid] at h⟩

theorem buildActions_isOk (name : String) (defs : List (String × Definition σ ε)) :
    isOkE (buildActions name defs) = defs.all (fun kd => !defInvalid kd.2) := by
  induction defs with
  | nil => rfl
  | cons kd rest ih =>
    obtain ⟨key, d⟩ := kd
    simp only [buildActions, List.all_cons]
    cases hd : defInvalid d with
    | true =>
      obtain ⟨e, he⟩ := (buildAction_cases name key d).1 hd
      rw [he]
      simp [isOkE]
    | false =>
      obtain ⟨a, ha⟩ := (buildAction_cases name key d).2 hd
      rw [ha]
      cases hr : buildActions name rest with
      | error e =>
        rw [hr] at ih
        simp only [isOkE] at ih ⊢
        simp [← ih]
      | ok as =>
        rw [hr] at ih
        simp only [isOkE] at ih ⊢
        simp [← ih]

theorem buildActions_keys (name : String) (defs : List (String × Definition σ ε))
    (acts : List (String × ActionCreator σ ε))
    (h : buildActions name defs = .ok acts) :
    acts.map Prod.fst = defs.map Prod.fst := by
  induction defs generalizing acts with
  | nil =>
    simp only [buildActions] at h
    cases h
    rfl
  | cons kd rest ih =>
    obtain ⟨key, d⟩ := kd
    simp only [buildActions] at h
    cases hb : buildAction name key d with
    | error e => rw [hb] at h; cases h
    | ok a =>
      rw [hb] at h
      cases hr : buildActions name rest with
      | error e => rw [hr] at h; cases h
      | ok as =>
        rw [hr] at h
        cases h
        simp [ih as hr]

theorem buildActions_lookup (name : String) (defs : List (String × Definition σ ε))
    (acts : List (String × ActionCreator σ ε))
    (h : buildActions name defs = .ok acts)
    (key : String) (d : Definition σ ε)
    (hd : lookupFirst defs key = some d) :
    ∃ a, lookupFirst acts key = some a ∧ buildAction name key d = .ok a := by
  induction defs generalizing acts with
  | nil => simp [lookupFirst] at hd
  | cons kd rest ih =>
    obtain ⟨k1, d1⟩ := kd
    simp only [buildActions] at h
    cases hb : buildAction name k1 d1 with
    | error e => rw [hb] at h; cases h
    | ok a1 =>
      rw [hb] at h
      cases hr : buildActions name rest with
      | error e => rw [hr] at h; cases h
      | ok as =>
        rw [hr] at h
        cases h
        rw [lookupFirst_cons] at hd
        rw [lookupFirst_cons]
        by_cases hk : (k1 == key) = true
        · rw [if_pos hk] at hd
          injection hd with hdd
          subst hdd
          have hkeq : k1 = key := by simpa using hk
          subst hkeq
          exact ⟨a1, by rw [if_pos hk], hb⟩
        · rw [if_neg hk] at hd
          rw [if_neg hk]
          exact ih as hr hd

theorem construct_ok_actions (name : String) (defs : List (String × Definition σ ε))
    (dir : Director σ ε) (h : construct name defs = .ok dir) :
    buildActions name defs = .ok dir.actions ∧
      dir.name = name ∧ dir.reducer = runReducer name defs := by
  unfold construct at h
  cases hb : buildActions name defs with
  | error e => rw [hb] at h; cases h
  | ok acts =>
    rw [hb] at h
    cases h
    exact ⟨rfl, rfl, rfl⟩

theorem reducerLoop_eq_find (name : String) (state : σ) (payload : JSObj)
    (t : String) (ht : getField payload "type" = some (.str t))
    (defs : List (String × Definition σ ε)) :
    reducerLoop name state payload defs =
      match defs.find? (fun kd => getBaseKey t == makeKey name kd.1 none) with
      | some kd => applyDefinition t kd.2 state payload
      | none => .ok state := by
  induction defs with
  | nil => rfl
  | cons kd rest ih =>
    obtain ⟨key, d⟩ := kd
    simp only [reducerLoop, typeString, ht]
    by_cases hm : (getBaseKey t == makeKey name key none) = true
    · rw [List.find?_cons_of_pos _ (by simpa using hm), if_pos hm]
    · rw [List.find?_cons_of_neg _ (by simpa using hm), if_neg hm]
      exact ih

theorem lookupFirst_map_value {α β : Type} (l : List (String × α)) (g : String → β)
    (k : String) (hk : k ∈ l.map Prod.fst) :
    lookupFirst (l.map (fun p => (p.1, g p.1))) k = some (g k) := by
  induction l with
  | nil => simp at hk
  | cons p rest ih =>
    obtain ⟨pk, pv⟩ := p
    simp only [List.map_cons] at hk ⊢
    rw [lookupFirst_cons]
    by_cases hp : (pk == k) = true
    · have hpkk : pk = k := by simpa using hp
      rw [if_pos hp, hpkk]
    · rw [if_neg hp]
      simp only [List.mem_cons] at hk
      rcases hk with hk | hk
      · exact absurd hk.symm (by simpa using hp)
      · exact ih hk

theorem lookupFirst_map_keys {α β : Type} (l : List (String × α)) (g : String → β) :
    (l.map (fun p => (p.1, g p.1))).map Prod.fst = l.map Prod.fst := by
  induction l with
  | nil => rfl
  | cons p rest ih => simp [ih]

theorem lookupFirst_map_snd {α β : Type} (l : List (String × α)) (g : α → β) (k : String) :
    lookupFirst (l.map (fun p => (p.1, g p.2))) k = (lookupFirst l k).map g := by
  induction l with
  | nil => simp [lookupFirst]
  | cons p rest ih =>
    obtain ⟨pk, pv⟩ := p
    simp only [List.map_cons]
    rw [lookupFirst_cons, lookupFirst_cons]
    by_cases hp : (pk == k) = true
    · rw [if_pos hp, if_pos hp]
      rfl
    · rw [if_neg hp, if_neg hp]
      exact ih

theorem find?_append_left_none {α : Type} (p : α → Bool) (l₁ l₂ : List α)
    (h : ∀ x ∈ l₁, p x = false) :
    (l₁ ++ l₂).find? p = l₂.find? p := by
  induction l₁ with
  | nil => rfl
  | cons a rest ih =>
    rw [List.cons_append, List.find?_cons_of_neg _ (by simp [h a (List.mem_cons_self a rest)]),
      ih (fun x hx => h x (List.mem_cons_of_mem a hx))]

/-- A sample flat-`reduce` asynchronous definition used in concrete checks. -/
def sampleAsyncFlat : DoneArg Nat → JSObj → (JSObj → Nat) → (Unit → Nat) → Nat :=
  fun done p _ _ =>
    match done with
    | .single dn => dn p
    | .table _ => 0

/-- A sample branching-`reduce` asynchronous definition for concrete checks. -/
def sampleAsyncBranch : DoneArg Nat → JSObj → (JSObj → Nat) → (Unit → Nat) → Nat :=
  fun done p _ _ =>
    match done with
    | .single dn => dn p
    | .table tbl =>
        match lookupFirst tbl "ok" with
        | some dn => dn p
        | none => 0

/-- Concrete definitions exercising every definition shape. -/
def cdefs : List (String × Definition Nat Nat) :=
  [ ("k", .func (fun s _ => s + 1))
  , ("c", .obj ⟨some (fun p => setField p "extra" (.num 7)), none,
      some (.flat (fun s _ => s + 2))⟩)
  , ("a", .obj ⟨none, some sampleAsyncFlat, some (.flat (fun s _ => s + 3))⟩)
  , ("b", .obj ⟨none, some sampleAsyncBranch,
      some (.branching [("ok", fun s _ => s * 2), ("bad", fun s _ => s * 3)])⟩)
  ]

/-- Fallback director for extracting construction results. -/
def dfltDirector : Director Nat Nat := ⟨"", [], fun s _ => .ok s⟩

/-- The director constructed from `cdefs`. -/
def cdir : Director Nat Nat := forceOk (construct "n" cdefs) dfltDirector

/-- Two definitions that collide on the same base key (possible in the list
model; duplicate keys in a literal object would collapse earlier in JS). -/
def ddefs : List (String × Definition Nat Nat) :=
  [("k", .func (fun s _ => s + 10)), ("k", .func (fun s _ => s + 20))]

/-- The director constructed from the colliding definitions. -/
def ddir : Director Nat Nat := forceOk (construct "n" ddefs) dfltDirector

/-- C1: construction throws a configuration error if and only if some
definition is an object lacking a (truthy) `reduce`, an object with neither
`create` nor `async`, or a value that is neither a function nor an object;
when every definition is valid, construction succeeds and registers exactly
one action creator per definition key, in definition order. -/
theorem construct_config_error_iff (σ ε : Type) (name : String)
    (defs : List (String × Definition σ ε)) :
    (isOkE (construct name defs) = true ↔
        defs.all (fun kd => !defInvalid kd.2) = true)
    ∧ (∀ dir : Director σ ε, construct name defs = .ok dir →
        dir.actions.map Prod.fst = defs.map Prod.fst) := by
  constructor
  · unfold construct
    cases hb : buildActions name defs with
    | error e =>
      have hh := buildActions_isOk name defs
      rw [hb] at hh
      simp only [isOkE] at hh ⊢
      rw [hh]
    | ok acts =>
      have hh := buildActions_isOk name defs
      rw [hb] at hh
      simp only [isOkE] at hh ⊢
      rw [← hh]
      simp
  · intro dir h
    obtain ⟨hacts, _, _⟩ := construct_ok_actions name defs dir h
    exact buildActions_keys name defs dir.actions hacts

/-- C1 witness: on the concrete definitions `cdefs` construction succeeds
and registers the four expected action-creator keys. -/
theorem construct_config_error_iff_witness :
    isOkE (construct "n" cdefs) = true
    ∧ cdir.actions.map Prod.fst = ["k", "c", "a", "b"] := by
  refine ⟨(construct_config_error_iff Nat Nat "n" cdefs).1.mpr (by decide), ?_⟩
  have h := (construct_config_error_iff Nat Nat "n" cdefs).2 cdir rfl
  rw [h]
  rfl

/-- C2: for a function-valued definition under `key`, the generated action
creator returns the payload merged with `type = "name:key"`, transforming no
payload field; called with no argument it returns just the type tag. -/
theorem func_creator_merges_type (σ ε : Type) (name key : String)
    (defs : List (String × Definition σ ε)) (f : σ → JSObj → σ) (dir : Director σ ε)
    (hc : construct name defs = .ok dir)
    (hdef : lookupFirst defs key = some (.func f)) :
    ∃ g, lookupFirst dir.actions key = some (.plain g)
      ∧ (∀ payload : JSObj,
            g (some payload) = setField payload "type" (.str (name ++ ":" ++ key))
            ∧ getField (g (some payload)) "type" = some (.str (name ++ ":" ++ key))
            ∧ ∀ k2, k2 ≠ "type" → getField (g (some payload)) k2 = getField payload k2)
      ∧ g none = [("type", .str (name ++ ":" ++ key))] := by
  obtain ⟨hacts, _, _⟩ := construct_ok_actions name defs dir hc
  obtain ⟨a, ha, hba⟩ := buildActions_lookup name defs dir.actions hacts key _ hdef
  simp only [buildAction] at hba
  cases hba
  refine ⟨_, ha, ?_, rfl⟩
  intro payload
  have h0 : setField ((some payload).getD []) "type" (.str (makeKey name key none))
      = setField payload "type" (.str (name ++ ":" ++ key)) := rfl
  refine ⟨h0, ?_, ?_⟩
  · rw [h0]
    exact getField_setField_same _ _ _
  · intro k2 hk2
    rw [h0]
    exact getField_setField_other _ _ _ _ hk2

/-- C2 witness: the `"k"` creator of the concrete director, on a payload and
with no argument. -/
theorem func_creator_merges_type_witness :
    ∃ g, lookupFirst cdir.actions "k" = some (.plain g)
      ∧ (∀ payload : JSObj,
            g (some payload) = setField payload "type" (.str ("n" ++ ":" ++ "k"))
            ∧ getField (g (some payload)) "type" = some (.str ("n" ++ ":" ++ "k"))
            ∧ ∀ k2, k2 ≠ "type" → getField (g (some payload)) k2 = getField payload k2)
      ∧ g none = [("type", .str ("n" ++ ":" ++ "k"))] :=
  func_creator_merges_type Nat Nat "n" "k" cdefs (fun s _ => s + 1) cdir rfl rfl

/-- C3: for a structured definition with `create` under `key`, the generated
creator returns exactly `create(payload)` merged with `type = "name:key"`;
no raw payload field appears in the action unless `create` returned it. -/
theorem create_creator_transforms_payload (σ ε : Type) (name key : String)
    (defs : List (String × Definition σ ε)) (c : JSObj → JSObj)
    (osync : Option (DoneArg ε → JSObj → (JSObj → ε) → (Unit → σ) → ε))
    (rd : ReduceDef σ) (dir : Director σ ε)
    (hc : construct name defs = .ok dir)
    (hdef : lookupFirst defs key = some (.obj ⟨some c, osync, some rd⟩)) :
    ∃ g, lookupFirst dir.actions key = some (.plain g)
      ∧ ∀ payload : JSObj,
          g (some payload) = setField (c payload) "type" (.str (name ++ ":" ++ key))
          ∧ getField (g (some payload)) "type" = some (.str (name ++ ":" ++ key))
          ∧ (∀ k2, k2 ≠ "type" → getField (g (some payload)) k2 = getField (c payload) k2)
          ∧ (∀ k2, getField (g (some payload)) k2 ≠ none →
              k2 = "type" ∨ getField (c payload) k2 ≠ none) := by
  obtain ⟨hacts, _, _⟩ := construct_ok_actions name defs dir hc
  obtain ⟨a, ha, hba⟩ := buildActions_lookup name defs dir.actions hacts key _ hdef
  simp only [buildAction] at hba
  cases hba
  refine ⟨_, ha, ?_⟩
  intro payload
  have h0 : setField (c ((some payload).getD [])) "type" (.str (makeKey name key none))
      = setField (c payload) "type" (.str (name ++ ":" ++ key)) := rfl
  refine ⟨h0, ?_, ?_, ?_⟩
  · rw [h0]
    exact getField_setField_same _ _ _
  · intro k2 hk2
    rw [h0]
    exact getField_setField_other _ _ _ _ hk2
  · intro k2 hne
    by_cases hk2 : k2 = "type"
    · exact Or.inl hk2
    · refine Or.inr ?_
      rw [h0, getField_setField_other _ _ _ _ hk2] at hne
      exact hne

/-- C3 witness: the `"c"` creator of the concrete director transforms the
payload through `create` before tagging it. -/
theorem create_creator_transforms_payload_witness :
    ∃ g, lookupFirst cdir.actions "c" = some (.plain g)
      ∧ ∀ payload : JSObj,
          g (some payload) = setField (setField payload "extra" (.num 7)) "type"
              (.str ("n" ++ ":" ++ "c"))
          ∧ getField (g (some payload)) "type" = some (.str ("n" ++ ":" ++ "c"))
          ∧ (∀ k2, k2 ≠ "type" → getField (g (some payload)) k2
              = getField (setField payload "extra" (.num 7)) k2)
          ∧ (∀ k2, getField (g (some payload)) k2 ≠ none →
              k2 = "type" ∨ getField (setField payload "extra" (.num 7)) k2 ≠ none) :=
  create_creator_transforms_payload Nat Nat "n" "c" cdefs
    (fun p => setField p "extra" (.num 7)) none (.flat (fun s _ => s + 2)) cdir rfl rfl

/-- C9: for both plain creator variants (function-valued and `create`), the
synthesized `type` is merged last, overwriting any `type` the caller payload
carried or `create` returned. -/
theorem plain_creator_type_overrides (σ ε : Type) (name key : String)
    (defs : List (String × Definition σ ε)) (dir : Director σ ε)
    (hc : construct name defs = .ok dir) :
    (∀ f : σ → JSObj → σ, lookupFirst defs key = some (.func f) →
      ∃ g, lookupFirst dir.actions key = some (.plain g)
        ∧ ∀ (payload : JSObj) (v : JSVal), getField payload "type" = some v →
            getField (g (some payload)) "type" = some (.str (makeKey name key none)))
    ∧ (∀ (c : JSObj → JSObj)
        (osync : Option (DoneArg ε → JSObj → (JSObj → ε) → (Unit → σ) → ε))
        (rd : ReduceDef σ),
        lookupFirst defs key = some (.obj ⟨some c, osync, some rd⟩) →
      ∃ g, lookupFirst dir.actions key = some (.plain g)
        ∧ ∀ (payload : JSObj) (v : JSVal), getField (c payload) "type" = some v →
            getField (g (some payload)) "type" = some (.str (makeKey name key none))) := by
  obtain ⟨hacts, _, _⟩ := construct_ok_actions name defs dir hc
  constructor
  · intro f hdef
    obtain ⟨a, ha, hba⟩ := buildActions_lookup name defs dir.actions hacts key _ hdef
    simp only [buildAction] at hba
    cases hba
    exact ⟨_, ha, fun payload v _ => getField_setField_same _ _ _⟩
  · intro c osync rd hdef
    obtain ⟨a, ha, hba⟩ := buildActions_lookup name defs dir.actions hacts key _ hdef
    simp only [buildAction] at hba
    cases hba
    exact ⟨_, ha, fun payload v _ => getField_setField_same _ _ _⟩

/-- C9 witness: the `"k"` creator of the concrete director overwrites a
caller-supplied `type` field. -/
theorem plain_creator_type_overrides_witness :
    ∃ g, lookupFirst cdir.actions "k" = some (.plain g)
      ∧ ∀ (payload : JSObj) (v : JSVal), getField payload "type" = some v →
          getField (g (some payload)) "type" = some (.str (makeKey "n" "k" none)) :=
  (plain_creator_type_overrides Nat Nat "n" "k" cdefs cdir rfl).1
    (fun s _ => s + 1) rfl

/-- C4: an action whose base key (first two ":"-separated components of its
type) matches no transition of the director leaves the state unchanged and
raises no error. -/
theorem unmatched_action_keeps_state (σ ε : Type) (name : String)
    (defs : List (String × Definition σ ε)) (dir : Director σ ε)
    (state : σ) (payload : JSObj) (t : String)
    (hc : construct name defs = .ok dir)
    (ht : getField payload "type" = some (.str t))
    (hno : ∀ kd ∈ defs, getBaseKey t ≠ makeKey name kd.1 none) :
    dir.reducer state payload = .ok state := by
  obtain ⟨_, _, hred⟩ := construct_ok_actions name defs dir hc
  rw [hred]
  unfold runReducer
  rw [reducerLoop_eq_find name state payload t ht defs]
  have hfind : defs.find? (fun kd => getBaseKey t == makeKey name kd.1 none) = none := by
    apply List.find?_eq_none.mpr
    intro kd hkd
    simpa using hno kd hkd
  rw [hfind]

/-- C4 witness: a foreign action type leaves the concrete director's state
untouched. -/
theorem unmatched_action_keeps_state_witness :
    cdir.reducer 41 [("type", .str "other:thing")] = .ok 41 :=
  unmatched_action_keeps_state Nat Nat "n" cdefs cdir 41
    [("type", .str "other:thing")] "other:thing" rfl rfl (by decide)

/-- C6: the reducer scans transitions in definition order and the first one
whose synthesized key equals the action's base key wins; when two
transitions would both match, the earlier-declared one is invoked and the
later is never reached. -/
theorem reducer_first_match_wins (σ ε : Type) (name : String)
    (defs : List (String × Definition σ ε)) (dir : Director σ ε)
    (state : σ) (payload : JSObj) (t : String)
    (hc : construct name defs = .ok dir)
    (ht : getField payload "type" = some (.str t)) :
    (dir.reducer state payload =
      match defs.find? (fun kd => getBaseKey t == makeKey name kd.1 none) with
      | some kd => applyDefinition t kd.2 state payload
      | none => .ok state)
    ∧ (∀ (pre mid post : List (String × Definition σ ε)) (k1 k2 : String)
        (d1 d2 : Definition σ ε),
        defs = pre ++ (k1, d1) :: mid ++ (k2, d2) :: post →
        (∀ kd ∈ pre, getBaseKey t ≠ makeKey name kd.1 none) →
        getBaseKey t = makeKey name k1 none →
        getBaseKey t = makeKey name k2 none →
        dir.reducer state payload = applyDefinition t d1 state payload) := by
  obtain ⟨_, _, hred⟩ := construct_ok_actions name defs dir hc
  have h1 : dir.reducer state payload =
      match defs.find? (fun kd => getBaseKey t == makeKey name kd.1 none) with
      | some kd => applyDefinition t kd.2 state payload
      | none => .ok state := by
    rw [hred]
    exact reducerLoop_eq_find name state payload t ht defs
  refine ⟨h1, ?_⟩
  intro pre mid post k1 k2 d1 d2 hdefs hpre hk1 hk2
  have hfind : defs.find? (fun kd => getBaseKey t == makeKey name kd.1 none)
      = some (k1, d1) := by
    rw [hdefs, List.append_assoc, List.cons_append]
    exact (find?_append_left_none (fun kd => getBaseKey t == makeKey name kd.1 none) pre
        ((k1, d1) :: (mid ++ (k2, d2) :: post))
        (fun kd hkd => str_beq_false _ _ (hpre kd hkd))).trans
      (List.find?_cons_of_pos _ (by simpa using hk1))
  rw [h1, hfind]

/-- C6 witness: with two definitions colliding on base key `"n:k"`, the
earlier one (adding 10) is invoked, never the later (adding 20). -/
theorem reducer_first_match_wins_witness :
    ddir.reducer 0 [("type", .str "n:k")] = .ok 10 := by
  have h := (reducer_first_match_wins Nat Nat "n" ddefs ddir 0
      [("type", .str "n:k")] "n:k" rfl rfl).2
    [] [] [] "k" "k" (.func (fun s _ => s + 10)) (.func (fun s _ => s + 20))
    rfl (by simp) (by decide) (by decide)
  exact h

/-- C5: when the matched transition has a branching `reduce` mapping, a
recognized (non-empty) sub key routes to that sub-reducer; an unrecognized
sub key raises a dispatch-time error naming the valid sub-keys; a type with
no usable third component (absent, or the empty segment the source's
truthiness test treats as absent) raises a dispatch-time error naming the
valid sub-keys. -/
theorem branching_reduce_dispatch (σ ε : Type) (name : String)
    (defs : List (String × Definition σ ε)) (dir : Director σ ε)
    (state : σ) (payload : JSObj) (t key : String) (o : ObjDef σ ε)
    (m : List (String × (σ → JSObj → σ)))
    (hc : construct name defs = .ok dir)
    (ht : getField payload "type" = some (.str t))
    (hfind : defs.find? (fun kd => getBaseKey t == makeKey name kd.1 none)
      = some (key, .obj o))
    (hrd : o.reduce = some (.branching m)) :
    (∀ s f, getSubKey t = some s → s ≠ "" → lookupFirst m s = some f →
        dir.reducer state payload = .ok (f state payload))
    ∧ (∀ s, getSubKey t = some s → s ≠ "" → lookupFirst m s = none →
        dir.reducer state payload = .error (.thrown
          ("Action " ++ t ++ " has subkey " ++ s ++ ", but should be one of: "
            ++ String.intercalate "," (m.map Prod.fst))))
    ∧ ((getSubKey t = none ∨ getSubKey t = some "") →
        dir.reducer state payload = .error (.thrown
          ("Action " ++ t ++ " doesn\x27t specify a subreducer, but should be one of: "
            ++ String.intercalate "," (m.map Prod.fst)))) := by
  obtain ⟨_, _, hred⟩ := construct_ok_actions name defs dir hc
  have hbase : dir.reducer state payload = applyDefinition t (.obj o) state payload := by
    rw [hred]
    unfold runReducer
    rw [reducerLoop_eq_find name state payload t ht defs, hfind]
  refine ⟨?_, ?_, ?_⟩
  · intro s f hs hs' hm
    rw [hbase]
    simp only [applyDefinition, hrd, hs]
    rw [if_neg (by simp [str_beq_false s "" hs']), hm]
  · intro s hs hs' hm
    rw [hbase]
    simp only [applyDefinition, hrd, hs]
    rw [if_neg (by simp [str_beq_false s "" hs']), hm]
  · intro hs
    rw [hbase]
    rcases hs with hs | hs
    · simp only [applyDefinition, hrd, hs]
    · simp only [applyDefinition, hrd, hs]
      simp

/-- C5 witness: the branching `"b"` transition of the concrete director:
sub key `"ok"` doubles the state, sub key `"nope"` raises the unrecognized
error, and a missing sub key raises the no-subreducer error. -/
theorem branching_reduce_dispatch_witness :
    cdir.reducer 5 [("type", .str "n:b:ok")] = .ok 10
    ∧ cdir.reducer 5 [("type", .str "n:b:nope")] = .error (.thrown
        ("Action " ++ "n:b:nope" ++ " has subkey " ++ "nope"
          ++ ", but should be one of: " ++ String.intercalate "," ["ok", "bad"]))
    ∧ cdir.reducer 5 [("type", .str "n:b")] = .error (.thrown
        ("Action " ++ "n:b" ++ " doesn\x27t specify a subreducer, but should be one of: "
          ++ String.intercalate "," ["ok", "bad"])) := by
  refine ⟨?_, ?_, ?_⟩
  · exact ((branching_reduce_dispatch Nat Nat "n" cdefs cdir 5 [("type", .str "n:b:ok")]
      "n:b:ok" "b"
      ⟨none, some sampleAsyncBranch,
        some (.branching [("ok", fun s _ => s * 2), ("bad", fun s _ => s * 3)])⟩
      [("ok", fun s _ => s * 2), ("bad", fun s _ => s * 3)]
      rfl rfl rfl rfl).1 "ok" (fun s _ => s * 2) rfl (by decide) rfl).trans rfl
  · exact (branching_reduce_dispatch Nat Nat "n" cdefs cdir 5 [("type", .str "n:b:nope")]
      "n:b:nope" "b"
      ⟨none, some sampleAsyncBranch,
        some (.branching [("ok", fun s _ => s * 2), ("bad", fun s _ => s * 3)])⟩
      [("ok", fun s _ => s * 2), ("bad", fun s _ => s * 3)]
      rfl rfl rfl rfl).2.1 "nope" rfl (by decide) rfl
  · exact (branching_reduce_dispatch Nat Nat "n" cdefs cdir 5 [("type", .str "n:b")]
      "n:b" "b"
      ⟨none, some sampleAsyncBranch,
        some (.branching [("ok", fun s _ => s * 2), ("bad", fun s _ => s * 3)])⟩
      [("ok", fun s _ => s * 2), ("bad", fun s _ => s * 3)]
      rfl rfl rfl rfl).2.2 (Or.inl rfl)

/-- C7: a structured definition with `async` (and no `create`) yields a
creator returning a thunk of `(dispatch, getState)`; running the thunk calls
the async logic as `async(done, payload, dispatch, getState)` where, for a
flat `reduce`, `done` is a single callback dispatching the result merged
with `type = makeKey name key` and, for a branching `reduce`, `done` is a
table with one callback per sub-transition key, each dispatching the result
merged with `type = makeKey name key subKey`. -/
theorem async_creator_protocol (σ ε : Type) (name key : String)
    (defs : List (String × Definition σ ε))
    (a : DoneArg ε → JSObj → (JSObj → ε) → (Unit → σ) → ε)
    (rd : ReduceDef σ) (dir : Director σ ε)
    (hc : construct name defs = .ok dir)
    (hdef : lookupFirst defs key = some (.obj ⟨none, some a, some rd⟩)) :
    ∃ th, lookupFirst dir.actions key = some (.thunkMaker th)
      ∧ (∀ f, rd = .flat f →
          ∀ (payload : Option JSObj) (dispatch : JSObj → ε) (getState : Unit → σ),
            ∃ dn, th payload dispatch getState
                = a (.single dn) (payload.getD []) dispatch getState
              ∧ ∀ rp, dn rp = dispatch (setField rp "type" (.str (makeKey name key none))))
      ∧ (∀ m, rd = .branching m →
          ∀ (payload : Option JSObj) (dispatch : JSObj → ε) (getState : Unit → σ),
            ∃ tbl, th payload dispatch getState
                = a (.table tbl) (payload.getD []) dispatch getState
              ∧ tbl.map Prod.fst = m.map Prod.fst
              ∧ ∀ sub, sub ∈ m.map Prod.fst →
                  ∃ dn, lookupFirst tbl sub = some dn
                    ∧ ∀ rp, dn rp
                        = dispatch (setField rp "type" (.str (makeKey name key (some sub))))) := by
  obtain ⟨hacts, _, _⟩ := construct_ok_actions name defs dir hc
  obtain ⟨ac, ha, hba⟩ := buildActions_lookup name defs dir.actions hacts key _ hdef
  simp only [buildAction] at hba
  cases hba
  refine ⟨_, ha, ?_, ?_⟩
  · intro f hf payload dispatch getState
    subst hf
    exact ⟨_, rfl, fun rp => rfl⟩
  · intro m hm payload dispatch getState
    subst hm
    refine ⟨_, rfl, lookupFirst_map_keys m
      (fun s innerPayload => dispatch (setField innerPayload "type"
        (.str (makeKey name key (some s))))), ?_⟩
    intro sub hsub
    refine ⟨_, lookupFirst_map_value m
      (fun s innerPayload => dispatch (setField innerPayload "type"
        (.str (makeKey name key (some s))))) sub hsub, fun rp => rfl⟩

/-- C7 witness: the `"a"` (flat) and `"b"` (branching) async transitions of
the concrete director follow the completion-callback protocol. -/
theorem async_creator_protocol_witness :
    (∃ th, lookupFirst cdir.actions "a" = some (.thunkMaker th)
      ∧ (∀ f, ReduceDef.flat (fun s (_ : JSObj) => s + 3) = ReduceDef.flat f →
          ∀ (payload : Option JSObj) (dispatch : JSObj → Nat) (getState : Unit → Nat),
            ∃ dn, th payload dispatch getState
                = sampleAsyncFlat (.single dn) (payload.getD []) dispatch getState
              ∧ ∀ rp, dn rp = dispatch (setField rp "type" (.str (makeKey "n" "a" none))))
      ∧ (∀ m, ReduceDef.flat (fun s (_ : JSObj) => s + 3) = ReduceDef.branching m →
          ∀ (payload : Option JSObj) (dispatch : JSObj → Nat) (getState : Unit → Nat),
            ∃ tbl, th payload dispatch getState
                = sampleAsyncFlat (.table tbl) (payload.getD []) dispatch getState
              ∧ tbl.map Prod.fst = m.map Prod.fst
              ∧ ∀ sub, sub ∈ m.map Prod.fst →
                  ∃ dn, lookupFirst tbl sub = some dn
                    ∧ ∀ rp, dn rp
                        = dispatch (setField rp "type" (.str (makeKey "n" "a" (some sub))))))
    ∧ (∃ th, lookupFirst cdir.actions "b" = some (.thunkMaker th)
      ∧ (∀ f, ReduceDef.branching [("ok", fun s (_ : JSObj) => s * 2),
            ("bad", fun s (_ : JSObj) => s * 3)] = ReduceDef.flat f →
          ∀ (payload : Option JSObj) (dispatch : JSObj → Nat) (getState : Unit → Nat),
            ∃ dn, th payload dispatch getState
                = sampleAsyncBranch (.single dn) (payload.getD []) dispatch getState
              ∧ ∀ rp, dn rp = dispatch (setField rp "type" (.str (makeKey "n" "b" none))))
      ∧ (∀ m, ReduceDef.branching [("ok", fun s (_ : JSObj) => s * 2),
            ("bad", fun s (_ : JSObj) => s * 3)] = ReduceDef.branching m →
          ∀ (payload : Option JSObj) (dispatch : JSObj → Nat) (getState : Unit → Nat),
            ∃ tbl, th payload dispatch getState
                = sampleAsyncBranch (.table tbl) (payload.getD []) dispatch getState
              ∧ tbl.map Prod.fst = m.map Prod.fst
              ∧ ∀ sub, sub ∈ m.map Prod.fst →
                  ∃ dn, lookupFirst tbl sub = some dn
                    ∧ ∀ rp, dn rp
                        = dispatch (setField rp "type" (.str (makeKey "n" "b" (some sub)))))) :=
  ⟨async_creator_protocol Nat Nat "n" "a" cdefs sampleAsyncFlat
      (.flat (fun s _ => s + 3)) cdir rfl rfl,
   async_creator_protocol Nat Nat "n" "b" cdefs sampleAsyncBranch
      (.branching [("ok", fun s _ => s * 2), ("bad", fun s _ => s * 3)]) cdir rfl rfl⟩

/-- C8: `combine` nests each director's own action mapping under its slice
key and produces the reducer by applying the custom combining function when
given, the default reducer-combination collaborator otherwise, to the
mapping from slice key to that director's reducer. -/
theorem combine_nests_actions_and_reducers (σ ε ρ : Type)
    (defaultCombine : List (String × (σ → JSObj → Except JSError σ)) → ρ)
    (directors : List (String × Director σ ε))
    (cc : Option (List (String × (σ → JSObj → Except JSError σ)) → ρ)) :
    ((combine defaultCombine directors none).reducer
        = defaultCombine (directors.map (fun p => (p.1, p.2.reducer))))
    ∧ (∀ f, (combine defaultCombine directors (some f)).reducer
        = f (directors.map (fun p => (p.1, p.2.reducer))))
    ∧ ((combine defaultCombine directors cc).actions
        = directors.map (fun p => (p.1, p.2.actions)))
    ∧ (∀ k, lookupFirst (combine defaultCombine directors cc).actions k
        = (lookupFirst directors k).map Director.actions) := by
  refine ⟨rfl, fun f => rfl, rfl, fun k => ?_⟩
  exact lookupFirst_map_snd directors Director.actions k

/-- C8 witness: combining the concrete director under slice `"x"`: the
default combiner receives the reducer mapping when no custom combiner is
given, the custom one receives it otherwise, and the actions nest. -/
theorem combine_nests_actions_and_reducers_witness :
    ((combine (fun l => l.map Prod.fst) [("x", cdir)]
        (none : Option (List (String × (Nat → JSObj → Except JSError Nat)) → List String))).reducer
      = ["x"])
    ∧ ((combine (fun l => l.map Prod.fst) [("x", cdir)]
        (some (fun l => "custom" :: l.map Prod.fst))).reducer = ["custom", "x"])
    ∧ (lookupFirst (combine (fun l => l.map Prod.fst) [("x", cdir)]
        (none : Option (List (String × (Nat → JSObj → Except JSError Nat)) → List String))).actions "x"
      = some cdir.actions) := by
  have h := combine_nests_actions_and_reducers Nat Nat (List String)
    (fun l => l.map Prod.fst) [("x", cdir)]
    (none : Option (List (String × (Nat → JSObj → Except JSError Nat)) → List String))
  exact ⟨h.1.trans rfl, (h.2.1 (fun l => "custom" :: l.map Prod.fst)).trans rfl,
    (h.2.2.2 "x").trans rfl⟩

/-- C10: the reducer of a director with at least one definition is not total
in the action: when the action's `type` field is not a string (in particular
absent), it raises a runtime TypeError, because the base key is computed by
splitting `action.type` before any match test. -/
theorem reducer_requires_string_type (σ ε : Type) (name : String)
    (kd : String × Definition σ ε) (rest : List (String × Definition σ ε))
    (dir : Director σ ε) (state : σ) (payload : JSObj)
    (hc : construct name (kd :: rest) = .ok dir)
    (hns : ∀ s, getField payload "type" ≠ some (.str s)) :
    ∃ msg, dir.reducer state payload = .error (.typeError msg) := by
  obtain ⟨_, _, hred⟩ := construct_ok_actions name (kd :: rest) dir hc
  rw [hred]
  obtain ⟨key, d⟩ := kd
  cases hg : getField payload "type" with
  | none =>
    refine ⟨"cannot read property split of undefined", ?_⟩
    simp [runReducer, reducerLoop, typeString, hg]
  | some v =>
    cases v with
    | str s => exact absurd hg (hns s)
    | num n =>
      refine ⟨"payload.type.split is not a function", ?_⟩
      simp [runReducer, reducerLoop, typeString, hg]
    | boolean b =>
      refine ⟨"payload.type.split is not a function", ?_⟩
      simp [runReducer, reducerLoop, typeString, hg]
    | null =>
      refine ⟨"payload.type.split is not a function", ?_⟩
      simp [runReducer, reducerLoop, typeString, hg]

/-- C10 witness: the concrete director's reducer on an action with no `type`
field raises a TypeError. -/
theorem reducer_requires_string_type_witness :
    ∃ msg, cdir.reducer 0 [] = .error (.typeError msg) :=
  reducer_requires_string_type Nat Nat "n" ("k", .func (fun s _ => s + 1))
    (cdefs.drop 1) cdir 0 [] rfl (fun _ h => nomatch h)

end StageDirector
